import Mathlib

/-!
# Verification of the pistachio-trading fast-path engine

Shallow embedding of the indicator engine (`src/trading/indicators.ts`), the
condition compiler (`src/trading/condition-compiler.ts`), the fast trading
engine (`src/trading/fast-engine.ts`), the backtest engine
(`src/trading/backtesting.ts`) and the orchestrator's Gate #1
(`src/cli.tsx`, `runHybridQuery`).

Modelling conventions:
* JavaScript `number` is modelled by `ℚ` (exact arithmetic; the claims under
  study are algebraic identities and comparisons, not float-rounding facts).
* JavaScript `Map` is modelled by an association list with unique keys;
  `Map.set` replaces in place, `Map.delete` removes the key.
* Optional object fields (`field?: number`) are modelled by `Option ℚ`;
  an assignment `obj.field = v` is `some v`.
* `Date` values (`compiledAt`, `expiresAt`, `new Date()`, `Date.now()`) are
  epoch milliseconds in `ℚ`; the moment the surrounding call happens is an
  explicit `now` parameter.
* Console logging and the performance/latency metrics (`updateMetrics`,
  `PerformanceMetrics`, the `latency` decision field) do not influence any
  decision or number a claim mentions and are not modelled.
-/

/-- `MarketData` from `src/trading/types.ts`.  The `open` field is renamed
`open_` (Lean keyword). -/
structure MarketData where
  ticker : String
  timestamp : ℚ
  price : ℚ
  open_ : ℚ
  high : ℚ
  low : ℚ
  close : ℚ
  volume : ℚ
  deriving Repr, DecidableEq

/-- `EnrichedMarketData` from `src/trading/types.ts`: a bar plus optional
indicator fields (absent unless set by `enrichData`). -/
structure EnrichedMarketData extends MarketData where
  SMA_20 : Option ℚ := none
  SMA_50 : Option ℚ := none
  SMA_200 : Option ℚ := none
  EMA_12 : Option ℚ := none
  EMA_26 : Option ℚ := none
  RSI : Option ℚ := none
  MACD : Option ℚ := none
  MACD_signal : Option ℚ := none
  MACD_histogram : Option ℚ := none
  BB_upper : Option ℚ := none
  BB_middle : Option ℚ := none
  BB_lower : Option ℚ := none
  ATR : Option ℚ := none
  volume_avg : Option ℚ := none
  volume_ratio : Option ℚ := none
  deriving Repr, DecidableEq

/-- The spread `{ ...data }` at the start of `enrichData`: every optional
field starts absent. -/
def toEnriched (d : MarketData) : EnrichedMarketData := { toMarketData := d }

/-- Wilder RSI accumulator (`rsiState` of `IndicatorCache`). -/
structure RsiState where
  avgGain : ℚ
  avgLoss : ℚ
  lastPrice : ℚ
  deriving Repr, DecidableEq

/-- Per-ticker `IndicatorCache` (the `lastUpdate` timestamp is bookkeeping
only and is not modelled).  `emaState` maps an EMA period to its cached
value. -/
structure IndicatorCache where
  emaState : List (ℕ × ℚ) := []
  rsiState : Option RsiState := none
  deriving Repr, DecidableEq

/-- The `IndicatorCalculator.cache` map, keyed by ticker. -/
def CalcState := List (String × IndicatorCache)

instance : DecidableEq CalcState := by
  unfold CalcState
  infer_instance

/-- Association-list lookup (JavaScript `Map.get`). -/
def lookupA {α : Type} : List (String × α) → String → Option α
  | [], _ => none
  | (k, v) :: rest, key => if k = key then some v else lookupA rest key

/-- Association-list insert/replace (JavaScript `Map.set`): replaces the
value at an existing key, otherwise appends. -/
def insertA {α : Type} : List (String × α) → String → α → List (String × α)
  | [], key, v => [(key, v)]
  | (k, w) :: rest, key, v =>
      if k = key then (k, v) :: rest else (k, w) :: insertA rest key v

/-- Association-list removal (JavaScript `Map.delete`). -/
def removeA {α : Type} : List (String × α) → String → List (String × α)
  | [], _ => []
  | (k, v) :: rest, key => if k = key then rest else (k, v) :: removeA rest key

/-- `w` is a prefix of `l` (character-level `String.startsWith`). -/
def startsWithL : List Char → List Char → Bool
  | [], _ => true
  | _ :: _, [] => false
  | c :: w, d :: l => c = d && startsWithL w l

/-- JavaScript `String.prototype.startsWith`, on the underlying character
lists. -/
def strStartsWith (s p : String) : Bool := startsWithL p.toList s.toList

/-- `IndicatorCalculator.SMA`: 0 when fewer than `period` bars (the sentinel
the source returns), otherwise the mean of the last `period` closes
(`data.slice(-period)`). -/
def SMA (data : List MarketData) (period : ℕ) : ℚ :=
  if data.length < period then 0
  else (((data.drop (data.length - period)).map (·.close)).sum) / (period : ℚ)

/-- `IndicatorCalculator.volumeAverage`: same shape as `SMA` over volumes. -/
def volumeAverage (data : List MarketData) (period : ℕ) : ℚ :=
  if data.length < period then 0
  else (((data.drop (data.length - period)).map (·.volume)).sum) / (period : ℚ)

/-- Read the cached EMA value for `period` (`cache?.emaState?.has(period)`). -/
def lookupEma : List (ℕ × ℚ) → ℕ → Option ℚ
  | [], _ => none
  | (p, v) :: rest, period => if p = period then some v else lookupEma rest period

/-- Store an EMA value for `period` in the per-ticker cache entry. -/
def setEma : List (ℕ × ℚ) → ℕ → ℚ → List (ℕ × ℚ)
  | [], period, v => [(period, v)]
  | (p, w) :: rest, period, v =>
      if p = period then (p, v) :: rest else (p, w) :: setEma rest period v

/-- `initializeCache` followed by writing `emaState[period] := v`. -/
def writeEma (st : CalcState) (ticker : String) (period : ℕ) (v : ℚ) :
    CalcState :=
  match lookupA st ticker with
  | some c => insertA st ticker { c with emaState := setEma c.emaState period v }
  | none => insertA st ticker { emaState := [(period, v)] }

/-- `initializeCache` followed by writing `rsiState := r`. -/
def writeRsi (st : CalcState) (ticker : String) (r : RsiState) : CalcState :=
  match lookupA st ticker with
  | some c => insertA st ticker { c with rsiState := some r }
  | none => insertA st ticker { rsiState := some r }

/-- `IndicatorCalculator.EMA`.  Returns 0 when fewer than `period` bars
(without touching the cache).  On a cache hit it performs the incremental
update; otherwise it seeds with the SMA of the first `period` closes
(`data.slice(0, period)`) and folds the remaining closes, then caches the
result. -/
def EMA (ticker : String) (data : List MarketData) (period : ℕ)
    (st : CalcState) : ℚ × CalcState :=
  if data.length < period then (0, st)
  else
    let multiplier : ℚ := 2 / ((period : ℚ) + 1)
    let latestPrice := ((data.getLast?).map (·.close)).getD 0
    match (lookupA st ticker).map (·.emaState) with
    | some es =>
      match lookupEma es period with
      | some prevEMA =>
          let newEMA := (latestPrice - prevEMA) * multiplier + prevEMA
          (newEMA, writeEma st ticker period newEMA)
      | none =>
          let sma := SMA (data.take period) period
          let ema := ((data.drop period).map (·.close)).foldl
            (fun e c => (c - e) * multiplier + e) sma
          (ema, writeEma st ticker period ema)
    | none =>
        let sma := SMA (data.take period) period
        let ema := ((data.drop period).map (·.close)).foldl
          (fun e c => (c - e) * multiplier + e) sma
        (ema, writeEma st ticker period ema)

/-- `IndicatorCalculator.RSI` (Wilder smoothing with caching). -/
def RSI (ticker : String) (data : List MarketData) (period : ℕ)
    (st : CalcState) : ℚ × CalcState :=
  if data.length < period + 1 then (50, st)
  else
    let closes := data.map (·.close)
    let latestPrice := closes.getLast?.getD 0
    let prevPrice := closes.dropLast.getLast?.getD 0
    match (lookupA st ticker).bind (·.rsiState) with
    | some r =>
        let change := latestPrice - prevPrice
        let gain := if change > 0 then change else 0
        let loss := if change < 0 then -change else 0
        let newAvgGain := (r.avgGain * ((period : ℚ) - 1) + gain) / (period : ℚ)
        let newAvgLoss := (r.avgLoss * ((period : ℚ) - 1) + loss) / (period : ℚ)
        let st' := writeRsi st ticker
          { avgGain := newAvgGain, avgLoss := newAvgLoss, lastPrice := latestPrice }
        if newAvgLoss = 0 then (100, st')
        else (100 - 100 / (1 + newAvgGain / newAvgLoss), st')
    | none =>
        let window := closes.drop (closes.length - (period + 1))
        let changes := window.tail.zipWith (fun a b => a - b) window
        let gains := (changes.map (fun c => if c > 0 then c else 0)).sum
        let losses := (changes.map (fun c => if c > 0 then 0 else -c)).sum
        let avgGain := gains / (period : ℚ)
        let avgLoss := losses / (period : ℚ)
        let st' := writeRsi st ticker
          { avgGain := avgGain, avgLoss := avgLoss, lastPrice := latestPrice }
        if avgLoss = 0 then (100, st')
        else (100 - 100 / (1 + avgGain / avgLoss), st')

/-- `IndicatorCalculator.calculateSignalLine`: the source returns
`macd * 0.9` ("Rough approximation") instead of an EMA over the MACD
series; `ticker` and `period` are accepted and ignored exactly as in the
source. -/
def calculateSignalLine (_ticker : String) (macd : ℚ) (_period : ℕ) : ℚ :=
  macd * (9 / 10)

/-- Return type of `IndicatorCalculator.MACD`. -/
structure MACDResult where
  macd : ℚ
  signal : ℚ
  histogram : ℚ
  deriving Repr, DecidableEq

/-- `IndicatorCalculator.MACD`: `EMA(12) − EMA(26)` (threading the cache
through both EMA calls in source order), signal from
`calculateSignalLine`, histogram `macd − signal`. -/
def MACD (ticker : String) (data : List MarketData) (st : CalcState) :
    MACDResult × CalcState :=
  let r12 := EMA ticker data 12 st
  let r26 := EMA ticker data 26 r12.2
  let macd := r12.1 - r26.1
  let signal := calculateSignalLine ticker macd 9
  ({ macd := macd, signal := signal, histogram := macd - signal }, r26.2)

/-- Integer-square-root approximation standing in for `Math.sqrt`.
No claim reads a Bollinger-band value, so only executability matters; the
source's floating `Math.sqrt` has no exact rational counterpart. -/
def sqrtQ (x : ℚ) : ℚ :=
  if x ≤ 0 then 0 else (Nat.sqrt (x.num.toNat * x.den) : ℚ) / (x.den : ℚ)

/-- Return type of `IndicatorCalculator.BollingerBands`. -/
structure BBResult where
  upper : ℚ
  middle : ℚ
  lower : ℚ
  deriving Repr, DecidableEq

/-- `IndicatorCalculator.BollingerBands` (σ computed with `sqrtQ`). -/
def BollingerBands (data : List MarketData) (period : ℕ) (stdDev : ℚ) :
    BBResult :=
  let middle := SMA data period
  if data.length < period then
    { upper := middle, middle := middle, lower := middle }
  else
    let prices := (data.drop (data.length - period)).map (·.close)
    let variance := (prices.map (fun p => (p - middle) ^ 2)).sum / (period : ℚ)
    let standardDeviation := sqrtQ variance
    { upper := middle + standardDeviation * stdDev
      middle := middle
      lower := middle - standardDeviation * stdDev }

/-- `IndicatorCalculator.ATR`: mean of the last `period` true ranges. -/
def ATR (data : List MarketData) (period : ℕ) : ℚ :=
  if data.length < period + 1 then 0
  else
    let trueRanges := (data.zip data.tail).map (fun pc =>
      max (pc.2.high - pc.2.low)
        (max |pc.2.high - pc.1.close| |pc.2.low - pc.1.close|))
    (((trueRanges.drop (trueRanges.length - period)).sum)) / (period : ℚ)

/-- One iteration of the `for (const indicator of indicators)` loop in
`IndicatorCalculator.enrichData`: matches the indicator name and sets the
corresponding enriched field(s), threading the calculator cache. -/
def enrichStep (ticker : String) (hist : List MarketData)
    (acc : EnrichedMarketData × CalcState) (ind : String) :
    EnrichedMarketData × CalcState :=
  let e := acc.1
  let st := acc.2
  if ind = "SMA_20" then ({ e with SMA_20 := some (SMA hist 20) }, st)
  else if ind = "SMA_50" then ({ e with SMA_50 := some (SMA hist 50) }, st)
  else if ind = "SMA_200" then ({ e with SMA_200 := some (SMA hist 200) }, st)
  else if ind = "EMA_12" then
    let r := EMA ticker hist 12 st
    ({ e with EMA_12 := some r.1 }, r.2)
  else if ind = "EMA_26" then
    let r := EMA ticker hist 26 st
    ({ e with EMA_26 := some r.1 }, r.2)
  else if ind = "RSI" then
    let r := RSI ticker hist 14 st
    ({ e with RSI := some r.1 }, r.2)
  else if ind = "MACD" then
    let r := MACD ticker hist st
    ({ e with MACD := some r.1.macd, MACD_signal := some r.1.signal,
              MACD_histogram := some r.1.histogram }, r.2)
  else if strStartsWith ind "BB_" then
    let b := BollingerBands hist 20 2
    ({ e with BB_upper := some b.upper, BB_middle := some b.middle,
              BB_lower := some b.lower }, st)
  else if ind = "ATR" then ({ e with ATR := some (ATR hist 14) }, st)
  else if ind = "volume_avg" then
    ({ e with volume_avg := some (volumeAverage hist 20) }, st)
  else acc

/-- The trailing `if (enriched.volume_avg)` of `enrichData`: set
`volume_ratio = data.volume / enriched.volume_avg` only when `volume_avg`
is present and truthy (non-zero). -/
def applyVolumeRatio (d : MarketData) (e : EnrichedMarketData) :
    EnrichedMarketData :=
  match e.volume_avg with
  | some v => if v = 0 then e else { e with volume_ratio := some (d.volume / v) }
  | none => e

/-- `IndicatorCalculator.enrichData`: spread the bar, run the indicator
loop, then the volume-ratio step. -/
def enrichData (ticker : String) (data : MarketData)
    (historicalData : List MarketData) (indicators : List String)
    (st : CalcState) : EnrichedMarketData × CalcState :=
  let r := indicators.foldl (enrichStep ticker historicalData) (toEnriched data, st)
  (applyVolumeRatio data r.1, r.2)

/-! ## Fast trading engine (`src/trading/fast-engine.ts`) -/

/-- `'BUY' | 'SELL' | 'HOLD'` from `src/trading/types.ts`. -/
inductive TAction where
  | BUY
  | SELL
  | HOLD
  deriving Repr, DecidableEq

/-- `TradingSignal` from `src/trading/types.ts`.  In the source `condition`
is either a JS function or an expression string compiled by
`compileCondition`; both reduce at evaluation time to a host function that
may throw.  We model the evaluated predicate directly as
`EnrichedMarketData → Except Unit Bool`, where `.error ()` is a thrown
runtime error (caught by `makeDecision`'s per-signal `try/catch`).  The
validation performed by `compileCondition` on string conditions is modelled
separately (see `compileCondition` below). -/
structure TradingSignal where
  id : String
  condition : EnrichedMarketData → Except Unit Bool
  action : TAction
  positionSize : ℚ
  confidence : ℚ
  reasoning : String
  priority : ℤ

/-- `RiskParameters` from `src/trading/types.ts`. -/
structure RiskParameters where
  maxPositionSize : ℚ
  stopLoss : ℚ
  takeProfit : ℚ
  maxDailyLoss : ℚ
  maxDrawdown : ℚ
  useDynamicSizing : Bool
  riskPerTrade : ℚ
  deriving Repr, DecidableEq

/-- `DataRequirements` from `src/trading/types.ts`. -/
structure DataRequirements where
  indicators : List String
  lookback : ℕ
  minDataPoints : ℕ
  deriving Repr, DecidableEq

/-- `CompiledStrategy` from `src/trading/types.ts` (`compiledAt`/`expiresAt`
as epoch milliseconds). -/
structure CompiledStrategy where
  id : String
  ticker : String
  timeframe : String
  dataRequirements : DataRequirements
  signals : List TradingSignal
  riskParams : RiskParameters
  compiledAt : ℚ
  expiresAt : ℚ

/-- `TradeDecision` from `src/trading/types.ts` (the measured `latency`
field is performance telemetry and is not modelled; `timestamp` is
`Date.now()` = the `now` parameter). -/
structure TradeDecision where
  action : TAction
  ticker : String
  positionSize : ℚ
  entryPrice : ℚ
  stopLoss : ℚ
  takeProfit : ℚ
  confidence : ℚ
  reasoning : String
  signalId : String
  timestamp : ℚ

/-- Mutable state of `FastTradingEngine`: loaded strategies keyed by ticker,
the per-ticker bar cache, the engine's position ledger, the daily P&L
accumulator and the indicator calculator's cache. -/
structure FastEngineState where
  strategies : List (String × CompiledStrategy)
  dataCache : List (String × List MarketData)
  positions : List (String × ℚ)
  dailyPnL : ℚ
  indState : CalcState

/-- A freshly constructed `FastTradingEngine`. -/
def freshEngine : FastEngineState :=
  { strategies := [], dataCache := [], positions := [], dailyPnL := 0,
    indState := [] }

/-- `FastTradingEngine.loadStrategy` (its console output, its expiry
warning, and the compiled-condition cache eviction are not modelled; the
latter only affects the string-condition compilation cache, which we do
not carry).  The source throws on a strategy with empty id/ticker/signals;
callers in the claims under study load valid strategies, and the guard is
restated as a hypothesis where it matters. -/
def loadStrategy (st : FastEngineState) (strategy : CompiledStrategy) :
    FastEngineState :=
  { st with strategies := insertA st.strategies strategy.ticker strategy }

/-- `FastTradingEngine.updateCache`: append the bar to the per-ticker cache
and `shift()` the oldest entry when the cache exceeds
`lookback * 2` (strategy present) or `maxCacheSize` (no strategy). -/
def updateCache (st : FastEngineState) (maxCacheSize : ℕ) (ticker : String)
    (data : MarketData) : FastEngineState :=
  let cache := (lookupA st.dataCache ticker).getD []
  let cache := cache ++ [data]
  let maxSize := match lookupA st.strategies ticker with
    | some strategy => strategy.dataRequirements.lookback * 2
    | none => maxCacheSize
  let cache := if cache.length > maxSize then cache.drop 1 else cache
  { st with dataCache := insertA st.dataCache ticker cache }

/-- `FastTradingEngine.checkRiskLimits`, in source order: HOLD always
passes; then the position-size cap, the daily-loss limit, and the
no-pyramiding check (`Math.abs(currentPosition) > 0`). -/
def checkRiskLimits (st : FastEngineState) (strategy : CompiledStrategy)
    (action : TAction) (positionSize : ℚ) : Bool :=
  if action = TAction.HOLD then true
  else if positionSize > strategy.riskParams.maxPositionSize then false
  else if st.dailyPnL < -strategy.riskParams.maxDailyLoss then false
  else if |(lookupA st.positions strategy.ticker).getD 0| > 0 then false
  else true

/-- The signal loop of `FastTradingEngine.makeDecision` (step 5): evaluate
conditions in list order; a thrown evaluation error is caught and the loop
continues; on a true condition that fails `checkRiskLimits` the loop also
continues; otherwise a `TradeDecision` is returned. -/
def evalSignals (st : FastEngineState) (strategy : CompiledStrategy)
    (ticker : String) (marketData : MarketData)
    (enrichedData : EnrichedMarketData) (now : ℚ) :
    List TradingSignal → Option TradeDecision
  | [] => none
  | signal :: rest =>
    match signal.condition enrichedData with
    | Except.error _ => evalSignals st strategy ticker marketData enrichedData now rest
    | Except.ok false => evalSignals st strategy ticker marketData enrichedData now rest
    | Except.ok true =>
      if checkRiskLimits st strategy signal.action signal.positionSize then
        some { action := signal.action
               ticker := ticker
               positionSize := signal.positionSize
               entryPrice := marketData.close
               stopLoss := marketData.close * (1 - strategy.riskParams.stopLoss)
               takeProfit := marketData.close * (1 + strategy.riskParams.takeProfit)
               confidence := signal.confidence
               reasoning := signal.reasoning
               signalId := signal.id
               timestamp := now }
      else evalSignals st strategy ticker marketData enrichedData now rest

/-- `FastTradingEngine.makeDecision`, with `new Date()` / `Date.now()` as
the explicit `now` parameter: look up the strategy (None when absent),
return None when `expiresAt < now`, update the bar cache, return None when
the cached history is shorter than `minDataPoints`, enrich, then run the
signal loop.  Returns the decision together with the updated engine
state. -/
def makeDecision (st : FastEngineState) (maxCacheSize : ℕ) (ticker : String)
    (marketData : MarketData) (now : ℚ) :
    Option TradeDecision × FastEngineState :=
  match lookupA st.strategies ticker with
  | none => (none, st)
  | some strategy =>
    if strategy.expiresAt < now then (none, st)
    else
      let st := updateCache st maxCacheSize ticker marketData
      let historicalData := (lookupA st.dataCache ticker).getD []
      if historicalData.length < strategy.dataRequirements.minDataPoints then
        (none, st)
      else
        let r := enrichData ticker marketData historicalData
          strategy.dataRequirements.indicators st.indState
        let st := { st with indState := r.2 }
        (evalSignals st strategy ticker marketData r.1 now strategy.signals, st)

/-! ## Backtest engine (`src/trading/backtesting.ts`) -/

/-- `BacktestConfig`. -/
structure BacktestConfig where
  initialCapital : ℚ
  commission : ℚ
  slippage : ℚ
  leverage : ℚ
  deriving Repr, DecidableEq

/-- `Position` from `src/trading/backtesting.ts`. -/
structure Position where
  ticker : String
  entry : ℚ
  quantity : ℚ
  entryTime : ℚ
  stopLoss : Option ℚ
  takeProfit : Option ℚ
  deriving Repr, DecidableEq

/-- `Trade` (ledger entry); `pnl` is set only on closing trades. -/
structure Trade where
  ticker : String
  action : TAction
  price : ℚ
  quantity : ℚ
  timestamp : ℚ
  pnl : Option ℚ
  commission : ℚ
  reason : String
  deriving Repr, DecidableEq

/-- Mutable state of `BacktestEngine` during a run. -/
structure BTState where
  capital : ℚ
  positions : List (String × Position)
  trades : List Trade
  equityCurve : List (ℚ × ℚ)
  engine : FastEngineState

/-- `reason: decision.reasoning || `Signal ${decision.signalId}`` (empty
string is falsy). -/
def tradeReason (decision : TradeDecision) : String :=
  if decision.reasoning = "" then "Signal " ++ decision.signalId
  else decision.reasoning

/-- `strategy?.riskParams.stopLoss || 0.02`: the default applies when the
configured value is falsy (zero). -/
def slFallback (x : ℚ) : ℚ := if x = 0 then 1/50 else x

/-- `strategy?.riskParams.takeProfit || 0.04`. -/
def tpFallback (x : ℚ) : ℚ := if x = 0 then 1/25 else x

/-- `BacktestEngine.executeTrade`: BUY with no open position opens one
(10% fixed sizing, slippage, commission; skipped when
`cost + commission > capital`); SELL with an open position closes it and
records the pnl; anything else is a no-op.  The `|| 0.02` / `|| 0.04`
fallbacks apply when the strategy's `stopLoss`/`takeProfit` are falsy
(zero). -/
def executeTrade (config : BacktestConfig) (strategy : CompiledStrategy)
    (st : BTState) (data : MarketData) (decision : TradeDecision) : BTState :=
  let position := lookupA st.positions data.ticker
  let executionPrice :=
    if decision.action = TAction.BUY then data.price * (1 + config.slippage)
    else data.price * (1 - config.slippage)
  if decision.action = TAction.BUY ∧ position = none then
    let positionSize := config.initialCapital * (1 / 10)
    let quantity : ℚ := (⌊positionSize / executionPrice⌋ : ℤ)
    let cost := quantity * executionPrice
    let commission := cost * config.commission
    if cost + commission ≤ st.capital then
      { st with
        capital := st.capital - (cost + commission)
        positions := insertA st.positions data.ticker
          { ticker := data.ticker
            entry := executionPrice
            quantity := quantity
            entryTime := data.timestamp
            stopLoss := some (executionPrice *
              (1 - slFallback strategy.riskParams.stopLoss))
            takeProfit := some (executionPrice *
              (1 + tpFallback strategy.riskParams.takeProfit)) }
        trades := st.trades ++
          [{ ticker := data.ticker, action := TAction.BUY,
             price := executionPrice, quantity := quantity,
             timestamp := data.timestamp, pnl := none,
             commission := commission, reason := tradeReason decision }] }
    else st
  else
    match position with
    | some p =>
      if decision.action = TAction.SELL then
        let proceeds := p.quantity * executionPrice
        let commission := proceeds * config.commission
        let cost := p.quantity * p.entry
        let pnl := proceeds - cost - commission
        { st with
          capital := st.capital + (proceeds - commission)
          positions := removeA st.positions data.ticker
          trades := st.trades ++
            [{ ticker := data.ticker, action := TAction.SELL,
               price := executionPrice, quantity := p.quantity,
               timestamp := data.timestamp, pnl := some pnl,
               commission := commission, reason := tradeReason decision }] }
      else st
    | none => st

/-- `BacktestEngine.closePosition`: sell `position` at
`data.price · (1 − slippage)`; note the source deletes `data.ticker` (the
bar's ticker) from the position map and stamps the trade with
`data.ticker`. -/
def closePosition (config : BacktestConfig) (st : BTState)
    (data : MarketData) (position : Position) (reason : String) : BTState :=
  let executionPrice := data.price * (1 - config.slippage)
  let proceeds := position.quantity * executionPrice
  let commission := proceeds * config.commission
  let cost := position.quantity * position.entry
  let pnl := proceeds - cost - commission
  { st with
    capital := st.capital + (proceeds - commission)
    positions := removeA st.positions data.ticker
    trades := st.trades ++
      [{ ticker := data.ticker, action := TAction.SELL,
         price := executionPrice, quantity := position.quantity,
         timestamp := data.timestamp, pnl := some pnl,
         commission := commission, reason := reason }] }

/-- `position.stopLoss && data.price <= position.stopLoss` (truthiness:
an absent or zero stop-loss never triggers). -/
def stopHit (position : Position) (price : ℚ) : Bool :=
  match position.stopLoss with
  | some s => !decide (s = 0) && decide (price ≤ s)
  | none => false

/-- `position.takeProfit && data.price >= position.takeProfit`. -/
def takeProfitHit (position : Position) (price : ℚ) : Bool :=
  match position.takeProfit with
  | some s => !decide (s = 0) && decide (price ≥ s)
  | none => false

/-- `BacktestEngine.updatePositions`: stop-loss checked before
take-profit. -/
def updatePositions (config : BacktestConfig) (st : BTState)
    (data : MarketData) : BTState :=
  match lookupA st.positions data.ticker with
  | some position =>
    if stopHit position data.price then
      closePosition config st data position "Stop Loss"
    else if takeProfitHit position data.price then
      closePosition config st data position "Take Profit"
    else st
  | none => st

/-- `BacktestEngine.closeAllPositions`: iterate the position map as a
JavaScript `Map` iterator does — entries removed by an earlier
`closePosition` (which deletes `data.ticker`) are skipped when reached. -/
def closeAllGo (config : BacktestConfig) (last : MarketData) :
    List (String × Position) → BTState → BTState
  | [], st => st
  | (k, p) :: rest, st =>
    if (lookupA st.positions k).isSome then
      closeAllGo config last rest (closePosition config st last p "End of backtest")
    else closeAllGo config last rest st

/-- `closeAllPositions` entry point. -/
def closeAllPositions (config : BacktestConfig) (st : BTState)
    (last : MarketData) : BTState :=
  closeAllGo config last st.positions st

/-- `BacktestEngine.calculateEquity`: cash plus the mark-to-market of the
position on the current bar's ticker. -/
def calculateEquity (st : BTState) (data : MarketData) : ℚ :=
  st.capital +
    (match lookupA st.positions data.ticker with
     | some position => position.quantity * data.price
     | none => 0)

/-- Metrics record (`BacktestMetrics`).  `sharpeRatio` is omitted: it is
computed with a floating `Math.sqrt` which has no exact rational
counterpart, and no claim reads it. -/
structure BacktestMetrics where
  totalTrades : ℕ
  winningTrades : ℕ
  losingTrades : ℕ
  totalPnL : ℚ
  totalReturn : ℚ
  maxDrawdown : ℚ
  winRate : ℚ
  avgWin : ℚ
  avgLoss : ℚ
  profitFactor : ℚ
  avgHoldingTime : ℚ
  totalCommissions : ℚ
  deriving Repr, DecidableEq

/-- The maximum-drawdown scan of `calculateMetrics` (lines 331–342 of
`backtesting.ts`): the running peak starts at `initialCapital` and each
sample's drawdown is measured against the running peak. -/
def ddLoop : ℚ → ℚ → List ℚ → ℚ
  | _, maxDrawdown, [] => maxDrawdown
  | maxEquity, maxDrawdown, e :: rest =>
    let maxEquity' := if e > maxEquity then e else maxEquity
    let drawdown := (maxEquity' - e) / maxEquity' * 100
    ddLoop maxEquity' (if drawdown > maxDrawdown then drawdown else maxDrawdown)
      rest

/-- `BacktestEngine.calculateMetrics` (minus the unmodelled Sharpe ratio).
`capital` is the engine's cash at the time of the call. -/
def calculateMetrics (config : BacktestConfig) (capital : ℚ)
    (trades : List Trade) (equityCurve : List (ℚ × ℚ)) : BacktestMetrics :=
  let sells := trades.filter (fun t => decide (t.action = TAction.SELL))
  let totalTrades := sells.length
  let wins := trades.filter (fun t =>
    match t.pnl with | some v => decide (v > 0) | none => false)
  let losses := trades.filter (fun t =>
    match t.pnl with | some v => decide (v < 0) | none => false)
  let totalPnL := (trades.map (fun t => t.pnl.getD 0)).sum
  let totalCommissions := (trades.map (·.commission)).sum
  let totalReturn := (capital - config.initialCapital) / config.initialCapital * 100
  let avgWin :=
    if wins.length > 0 then
      (wins.map (fun t => t.pnl.getD 0)).sum / (wins.length : ℚ)
    else 0
  let avgLoss :=
    if losses.length > 0 then
      |(losses.map (fun t => t.pnl.getD 0)).sum / (losses.length : ℚ)|
    else 0
  let winRate :=
    if totalTrades > 0 then (wins.length : ℚ) / (totalTrades : ℚ) * 100 else 0
  let profitFactor := if avgLoss > 0 then avgWin / avgLoss else 0
  let maxDrawdown := ddLoop config.initialCapital 0 (equityCurve.map (·.2))
  let buyTrades := trades.filter (fun t => decide (t.action = TAction.BUY))
  let totalHoldingTime :=
    ((sells.zip buyTrades).map (fun p => p.1.timestamp - p.2.timestamp)).sum
  let avgHoldingTime :=
    if buyTrades.length > 0 then totalHoldingTime / (buyTrades.length : ℚ)
    else 0
  { totalTrades := totalTrades
    winningTrades := wins.length
    losingTrades := losses.length
    totalPnL := totalPnL
    totalReturn := totalReturn
    maxDrawdown := maxDrawdown
    winRate := winRate
    avgWin := avgWin
    avgLoss := avgLoss
    profitFactor := profitFactor
    avgHoldingTime := avgHoldingTime
    totalCommissions := totalCommissions }

/-- `BacktestResult`. -/
structure BacktestResult where
  config : BacktestConfig
  metrics : BacktestMetrics
  trades : List Trade
  equityCurve : List (ℚ × ℚ)
  positions : List Position
  finalCapital : ℚ

/-- The per-bar loop of `BacktestEngine.runBacktest`: decision → execution
→ stop/take-profit maintenance → equity-curve sampling at every 100th bar
and at the last bar.  The engine inside a `BacktestEngine` is constructed
with the default `maxCacheSize` of 1000. -/
def btLoop (config : BacktestConfig) (strategy : CompiledStrategy) (now : ℚ)
    (total : ℕ) : ℕ → List MarketData → BTState → BTState
  | _, [], st => st
  | i, data :: rest, st =>
    let r := makeDecision st.engine 1000 data.ticker data now
    let st := { st with engine := r.2 }
    let st := match r.1 with
      | some decision => executeTrade config strategy st data decision
      | none => st
    let st := updatePositions config st data
    let st :=
      if i % 100 = 0 ∨ i = total - 1 then
        { st with equityCurve :=
            st.equityCurve ++ [(data.timestamp, calculateEquity st data)] }
      else st
    btLoop config strategy now total (i + 1) rest st

/-- `BacktestEngine.runBacktest` after `loadStrategy`, with `new Date()`
inside the embedded engine as the explicit `now`.  Returns `none` when
`loadStrategy` would have thrown (empty id/ticker/signal list); otherwise
runs the per-bar loop from a fresh state, closes every remaining position
at the last bar, and assembles the result. -/
def runBacktest (config : BacktestConfig) (strategy : CompiledStrategy)
    (historicalData : List MarketData) (now : ℚ) : Option BacktestResult :=
  if strategy.id = "" ∨ strategy.ticker = "" ∨ strategy.signals.length = 0 then
    none
  else
    let st0 : BTState :=
      { capital := config.initialCapital, positions := [], trades := [],
        equityCurve := [], engine := loadStrategy freshEngine strategy }
    let st1 := btLoop config strategy now historicalData.length 0
      historicalData st0
    let st2 := match historicalData.getLast? with
      | some lastData => closeAllPositions config st1 lastData
      | none => st1
    some { config := config
           metrics := calculateMetrics config st2.capital st2.trades st2.equityCurve
           trades := st2.trades
           equityCurve := st2.equityCurve
           positions := st2.positions.map (·.2)
           finalCapital := st2.capital }

/-! ## Orchestrator Gate #1 (`src/cli.tsx`, `runHybridQuery`) -/

/-- Orchestrator modes. -/
inductive Mode where
  | RESEARCH
  | TRADING
  | PAUSED
  deriving Repr, DecidableEq

/-- The Gate #1 thresholds hard-coded in `runHybridQuery`
(`minTrades: 3, maxDrawdownPct: 20, minTotalReturnPct: -5`). -/
def gate1MinTrades : ℕ := 3

/-- Gate #1 drawdown ceiling (percent). -/
def gate1MaxDrawdownPct : ℚ := 20

/-- Gate #1 return floor (percent). -/
def gate1MinTotalReturnPct : ℚ := -5

/-- `gatePass` from `runHybridQuery`. -/
def gate1Pass (m : BacktestMetrics) : Bool :=
  decide (m.totalTrades ≥ gate1MinTrades) &&
  decide (m.maxDrawdown ≤ gate1MaxDrawdownPct) &&
  decide (m.totalReturn ≥ gate1MinTotalReturnPct)

/-- Observable outcome of the Gate #1 branch in `runHybridQuery`. -/
structure Gate1Outcome where
  pass : Bool
  mode : Mode
  summaryEmitted : Bool
  deriving Repr, DecidableEq

/-- The Gate #1 branch of `runHybridQuery`: on pass `setMode('TRADING')`;
on fail `setMode('RESEARCH')` and a run summary is emitted via
`handleAnswerComplete`. -/
def gate1Outcome (m : BacktestMetrics) : Gate1Outcome :=
  if gate1Pass m then
    { pass := true, mode := Mode.TRADING, summaryEmitted := false }
  else
    { pass := false, mode := Mode.RESEARCH, summaryEmitted := true }

/-! ## Condition compiler (`src/trading/condition-compiler.ts`)

The compiler is modelled at the character level (`List Char`).  The
success value carries the normalized expression text standing for the
function the source builds with `new Function(...)`; the JavaScript
evaluation semantics of that function is not modelled — every claim about
the compiler concerns the validation phase only. -/

/-- JS `\w` (regex word character): `[A-Za-z0-9_]`. -/
def isWordChar (c : Char) : Bool := c.isAlpha || c.isDigit || c = '_'

/-- Whitespace for `String.prototype.trim` and the `\s` class.  ASCII
whitespace only (space, TAB, LF, VT, FF, CR); the exotic Unicode space
code points JavaScript also strips play no role in any claim. -/
def isWsChar (c : Char) : Bool :=
  c = ' ' || c = '\t' || c = '\n' || c = '\r' || c.toNat = 11 || c.toNat = 12

/-- `String.prototype.trim` on character lists. -/
def trimL (l : List Char) : List Char :=
  ((l.dropWhile isWsChar).reverse.dropWhile isWsChar).reverse

/-- `raw.replace(/\bdata\./g, '')`: delete every occurrence of `data.`
that starts at a word boundary, scanning left to right without
re-scanning the spliced text.  `prev` records whether the character
before the scan position is a word character (no boundary when it is). -/
def stripDataAux : Bool → List Char → List Char
  | _, [] => []
  | prev, 'd' :: 'a' :: 't' :: 'a' :: '.' :: rest =>
    if prev then 'd' :: stripDataAux true ('a' :: 't' :: 'a' :: '.' :: rest)
    else stripDataAux false rest
  | _, c :: rest => c :: stripDataAux (isWordChar c) rest

/-- The forbidden single characters rejected first
(`;`, backtick, double quote, single quote, backslash, `[`, `]`, `{`,
`}`). -/
def forbiddenChars : List Char :=
  [';', Char.ofNat 96, Char.ofNat 34, Char.ofNat 39, Char.ofNat 92,
   '[', ']', Char.ofNat 123, Char.ofNat 125]

/-- The conservative character set of the `/^[\w\s().,!<>=&|+\-*\/%]+$/`
test. -/
def allowedChar (c : Char) : Bool :=
  isWordChar c || isWsChar c ||
  ['(', ')', '.', ',', '!', '<', '>', '=', '&', '|', '+', '-', '*', '/', '%'].contains c

/-- The deny-listed keywords checked with `lowered.includes(w)`. -/
def badWords : List (List Char) :=
  ["constructor".toList, "prototype".toList, "process".toList,
   "global".toList, "require".toList, "import".toList,
   "function".toList, "new".toList]

/-- `w` occurs as a contiguous substring of `l` (JS `String.includes`). -/
def hasSub : List Char → List Char → Bool
  | [], w => startsWithL w []
  | c :: rest, w => startsWithL w (c :: rest) || hasSub rest w

/-- The three kinds of compile-time rejection (`InvalidCondition` in the
spec's error taxonomy; the source throws `Error` with the matching
message). -/
inductive CompileErr where
  | forbiddenToken
  | invalidChars
  | forbiddenKeyword
  deriving Repr, DecidableEq

/-- `compileCondition` from `src/trading/condition-compiler.ts`: trim,
return a constant-false predicate on the empty string, strip `data.`
prefixes, then reject forbidden characters, characters outside the
conservative set (the regex also rejects an empty normalized string), and
deny-listed keywords on the lowercased text.  On success the source
builds the predicate with `new Function`; we return the normalized text
it would be built from. -/
def compileCondition (expr : List Char) : Except CompileErr (List Char) :=
  let raw := trimL expr
  if raw = [] then Except.ok []
  else
    let normalized := stripDataAux false raw
    if normalized.any (fun c => forbiddenChars.contains c) then
      Except.error CompileErr.forbiddenToken
    else if normalized = [] ∨ ¬ (normalized.all allowedChar) then
      Except.error CompileErr.invalidChars
    else
      let lowered := normalized.map Char.toLower
      if badWords.any (fun w => hasSub lowered w) then
        Except.error CompileErr.forbiddenKeyword
      else Except.ok normalized

/-! ## Spec-modelled definitions and helper quantities -/

/-- Modelled from the spec: the MACD **signal line** is an `EMA(9)` over
the successive MACD values, maintained as a separate accumulator for the
MACD stream; per the spec's EMA contract it is seeded with the SMA of the
first 9 stream values and is absent while the stream holds fewer than 9
values.  (The implementation of this quantity is missing from the source:
`calculateSignalLine` returns `macd * 0.9` with the comment "would need
historical MACD values for proper calculation".) -/
def specSignalEMA9 (stream : List ℚ) : Option ℚ :=
  if stream.length < 9 then none
  else
    let multiplier : ℚ := 2 / 10
    let seed := (stream.take 9).sum / 9
    some ((stream.drop 9).foldl (fun e c => (c - e) * multiplier + e) seed)

/-- Sum of `trade.pnl` over a ledger (absent pnl counts 0, as in
`t.pnl || 0`). -/
def sumPnl (trades : List Trade) : ℚ :=
  (trades.map (fun t => t.pnl.getD 0)).sum

/-- Sum of commissions over the BUY trades of a ledger. -/
def sumBuyComm (trades : List Trade) : ℚ :=
  ((trades.filter (fun t => decide (t.action = TAction.BUY))).map
    (·.commission)).sum

/-- Sum of commissions over all trades of a ledger. -/
def sumComm (trades : List Trade) : ℚ :=
  (trades.map (·.commission)).sum

/-- Cost basis (quantity × entry) of all open positions. -/
def posBook (positions : List (String × Position)) : ℚ :=
  (positions.map (fun kp => kp.2.quantity * kp.2.entry)).sum

/-- The cash-accounting invariant maintained by `BacktestEngine` along a
single-ticker run: the position map is empty or a singleton keyed by the
strategy's ticker, and cash equals initial capital plus realized pnl,
minus BUY commissions, minus the cost basis of open positions. -/
def StateOK (config : BacktestConfig) (strategy : CompiledStrategy)
    (st : BTState) : Prop :=
  (st.positions = [] ∨ ∃ p : Position, st.positions = [(strategy.ticker, p)]) ∧
  st.capital = config.initialCapital + sumPnl st.trades
    - sumBuyComm st.trades - posBook st.positions

/-! ## Concrete instances used by counterexamples and witnesses -/

/-- A flat synthetic bar on ticker `T`. -/
def mkBar (t p v : ℚ) : MarketData :=
  { ticker := "T", timestamp := t, price := p, open_ := p, high := p,
    low := p, close := p, volume := v }

/-- Concrete risk parameters (all limits well inside the defaults). -/
def exRisk : RiskParameters :=
  { maxPositionSize := 1/10, stopLoss := 1/50, takeProfit := 1/25,
    maxDailyLoss := 1/20, maxDrawdown := 1/10, useDynamicSizing := false,
    riskPerTrade := 1/100 }

/-- A signal whose condition always holds. -/
def exSigTrue : TradingSignal :=
  { id := "s1", condition := fun _ => Except.ok true, action := TAction.BUY,
    positionSize := 1/20, confidence := 9/10, reasoning := "always",
    priority := 1 }

/-- A signal whose condition throws on zero-volume bars and holds
otherwise. -/
def exSigVol : TradingSignal :=
  { id := "s1",
    condition := fun e => if e.volume = 0 then Except.error () else Except.ok true,
    action := TAction.BUY, positionSize := 1/20, confidence := 9/10,
    reasoning := "vol", priority := 1 }

/-- Strategy for ticker `T` expiring at t = 100, needing one data point
and no indicators, with the always-true BUY signal. -/
def exStrat : CompiledStrategy :=
  { id := "st1", ticker := "T", timeframe := "1day",
    dataRequirements := { indicators := [], lookback := 1, minDataPoints := 1 },
    signals := [exSigTrue], riskParams := exRisk, compiledAt := 0,
    expiresAt := 100 }

/-- Same strategy with the throwing signal and a far-future expiry. -/
def exStratVol : CompiledStrategy :=
  { id := "st2", ticker := "T", timeframe := "1day",
    dataRequirements := { indicators := [], lookback := 1, minDataPoints := 1 },
    signals := [exSigVol], riskParams := exRisk, compiledAt := 0,
    expiresAt := 1000000 }

/-- Engine with `exStrat` loaded. -/
def exEngine : FastEngineState := loadStrategy freshEngine exStrat

/-- Engine with `exStratVol` loaded. -/
def exEngineVol : FastEngineState := loadStrategy freshEngine exStratVol

/-- First of four consecutive decision calls against `exStratVol`:
zero-volume bar, so the predicate throws. -/
def c6call1 : Option TradeDecision × FastEngineState :=
  makeDecision exEngineVol 1000 "T" (mkBar 1 100 0) 10

/-- Second consecutive throwing call. -/
def c6call2 : Option TradeDecision × FastEngineState :=
  makeDecision c6call1.2 1000 "T" (mkBar 2 100 0) 10

/-- Third consecutive throwing call. -/
def c6call3 : Option TradeDecision × FastEngineState :=
  makeDecision c6call2.2 1000 "T" (mkBar 3 100 0) 10

/-- Fourth call, with volume 1: the same signal is evaluated again. -/
def c6call4 : Option TradeDecision × FastEngineState :=
  makeDecision c6call3.2 1000 "T" (mkBar 4 100 1) 10

/-- Concrete backtest configuration (the values hard-coded in
`runHybridQuery`). -/
def exCfg : BacktestConfig :=
  { initialCapital := 100000, commission := 1/1000, slippage := 1/2000,
    leverage := 1 }

/-- A one-bar backtest of `exStrat`: the signal fires at bar 0, a position
is opened with slippage and commission, and the end-of-run close realizes
a loss of both spreads. -/
def exRun : Option BacktestResult :=
  runBacktest exCfg exStrat [mkBar 0 100 1] 50

/-- Twelve flat bars with close 2: enough history for `EMA(12)` but not
for `EMA(26)`. -/
def c1bars : List MarketData := List.replicate 12 (mkBar 0 2 1)

/-- The MACD triple the source computes on `c1bars` from a fresh
calculator. -/
def c1res : MACDResult := (MACD "T" c1bars ([] : CalcState)).1

/-- The BUY trade the one-bar backtest `exRun` records: execution at
`100 · 1.0005`, quantity `⌊10000 / 100.05⌋ = 99`. -/
def exBuyTrade : Trade :=
  { ticker := "T", action := TAction.BUY, price := 2001/20, quantity := 99,
    timestamp := 0, pnl := none, commission := 198099/20000,
    reason := "always" }

/-- The end-of-run SELL trade of `exRun`: execution at `100 · 0.9995`,
pnl `= proceeds − cost − sell-commission`. -/
def exSellTrade : Trade :=
  { ticker := "T", action := TAction.SELL, price := 1999/20, quantity := 99,
    timestamp := 0, pnl := some (-395901/20000), commission := 197901/20000,
    reason := "End of backtest" }

/-- The metrics of `exRun`. -/
def exMetrics : BacktestMetrics :=
  { totalTrades := 1, winningTrades := 0, losingTrades := 1,
    totalPnL := -395901/20000, totalReturn := -297/10000,
    maxDrawdown := 297099/20000000, winRate := 0, avgWin := 0,
    avgLoss := 395901/20000, profitFactor := 0, avgHoldingTime := 0,
    totalCommissions := 99/5 }

/-- The full result of the one-bar backtest `exRun`. -/
def exRunResult : BacktestResult :=
  { config := exCfg, metrics := exMetrics,
    trades := [exBuyTrade, exSellTrade],
    equityCurve := [(0, 1999702901/20000)],
    positions := [], finalCapital := 999703/10 }

/-- Metrics of the spec's literal Gate #1 scenario: 2 trades, 3% return,
5% drawdown. -/
def exFailMetrics : BacktestMetrics :=
  { totalTrades := 2, winningTrades := 1, losingTrades := 1, totalPnL := 0,
    totalReturn := 3, maxDrawdown := 5, winRate := 50, avgWin := 1,
    avgLoss := 1, profitFactor := 1, avgHoldingTime := 0,
    totalCommissions := 0 }

/-! ## Helper lemmas -/

theorem enrichStep_volume_ratio (t : String) (h : List MarketData)
    (acc : EnrichedMarketData × CalcState) (ind : String) :
    ((enrichStep t h acc ind).1).volume_ratio = acc.1.volume_ratio := by
  simp only [enrichStep]
  by_cases h1 : ind = "SMA_20"
  · rw [if_pos h1]
  rw [if_neg h1]
  by_cases h2 : ind = "SMA_50"
  · rw [if_pos h2]
  rw [if_neg h2]
  by_cases h3 : ind = "SMA_200"
  · rw [if_pos h3]
  rw [if_neg h3]
  by_cases h4 : ind = "EMA_12"
  · rw [if_pos h4]
  rw [if_neg h4]
  by_cases h5 : ind = "EMA_26"
  · rw [if_pos h5]
  rw [if_neg h5]
  by_cases h6 : ind = "RSI"
  · rw [if_pos h6]
  rw [if_neg h6]
  by_cases h7 : ind = "MACD"
  · rw [if_pos h7]
  rw [if_neg h7]
  by_cases h8 : strStartsWith ind "BB_" = true
  · rw [if_pos h8]
  rw [if_neg h8]
  by_cases h9 : ind = "ATR"
  · rw [if_pos h9]
  rw [if_neg h9]
  by_cases h10 : ind = "volume_avg"
  · rw [if_pos h10]
  rw [if_neg h10]

theorem foldl_enrich_volume_ratio (t : String) (h : List MarketData) :
    ∀ (inds : List String) (acc : EnrichedMarketData × CalcState),
      ((inds.foldl (enrichStep t h) acc).1).volume_ratio = acc.1.volume_ratio := by
  intro inds
  induction inds with
  | nil => intro acc; rfl
  | cons i is ih =>
    intro acc
    rw [List.foldl_cons, ih, enrichStep_volume_ratio]

/-! ## Claim theorems -/

/-- C10: in every enrichment call, `volume_ratio` is set iff the computed
`volume_avg` is present and non-zero; when set, it equals
`volume / volume_avg`, so the division is never performed with a zero
divisor. -/
theorem c10_volume_ratio_guard (ticker : String) (data : MarketData)
    (hist : List MarketData) (inds : List String) (st : CalcState) :
    (((enrichData ticker data hist inds st).1).volume_ratio.isSome
      ↔ ∃ v, ((enrichData ticker data hist inds st).1).volume_avg = some v ∧
          v ≠ 0) ∧
    (∀ v, ((enrichData ticker data hist inds st).1).volume_avg = some v →
      v ≠ 0 →
      ((enrichData ticker data hist inds st).1).volume_ratio
        = some (data.volume / v)) := by
  unfold enrichData
  have hnone :
      ((inds.foldl (enrichStep ticker hist) (toEnriched data, st)).1).volume_ratio
        = none := by
    rw [foldl_enrich_volume_ratio]; rfl
  unfold applyVolumeRatio
  rcases hva :
    ((inds.foldl (enrichStep ticker hist) (toEnriched data, st)).1).volume_avg
    with _ | v
  · simp [hva, hnone]
  · by_cases hv : v = 0
    · simp [hva, hv, hnone]
    · simp [hva, hv, hnone]

/-- C10 witness: with a 20-bar history of volume 1 the enrichment sets
`volume_avg = 1` and `volume_ratio = 5`. -/
theorem c10_volume_ratio_witness :
    ((enrichData "T" (mkBar 0 2 5)
        (List.replicate 20 (mkBar 0 2 1)) ["volume_avg"] ([] : CalcState)).1).volume_ratio
      = some 5 := by
  have h := (c10_volume_ratio_guard "T" (mkBar 0 2 5)
    (List.replicate 20 (mkBar 0 2 1)) ["volume_avg"] ([] : CalcState)).2 1
  have hva :
      ((enrichData "T" (mkBar 0 2 5)
          (List.replicate 20 (mkBar 0 2 1)) ["volume_avg"] ([] : CalcState)).1).volume_avg
        = some 1 := by
    norm_num +decide [enrichData, enrichStep, toEnriched, applyVolumeRatio,
      volumeAverage, mkBar, List.replicate]
  have := h hva (by norm_num)
  rw [this]
  norm_num [mkBar]

/-- C8: Gate #1 passes iff `total_trades ≥ 3` and `max_drawdown ≤ 20` and
`total_return ≥ −5`; on pass the mode becomes TRADING, on fail the mode
stays RESEARCH and the run summary is emitted. -/
theorem c8_gate1_behavior (m : BacktestMetrics) :
    (gate1Pass m = true ↔
      gate1MinTrades ≤ m.totalTrades ∧ m.maxDrawdown ≤ gate1MaxDrawdownPct ∧
      gate1MinTotalReturnPct ≤ m.totalReturn) ∧
    (gate1Pass m = true → (gate1Outcome m).mode = Mode.TRADING) ∧
    (gate1Pass m = false →
      (gate1Outcome m).mode = Mode.RESEARCH ∧
        (gate1Outcome m).summaryEmitted = true) := by
  refine ⟨?_, fun h => by simp [gate1Outcome, h], fun h => by simp [gate1Outcome, h]⟩
  simp [gate1Pass, ge_iff_le, and_assoc]

/-- C8 witness: the literal spec scenario (2 trades, 3% return, 5% dd)
fails the gate and stays in RESEARCH with a summary. -/
theorem c8_gate1_witness :
    (gate1Outcome exFailMetrics).mode = Mode.RESEARCH := by
  have h := (c8_gate1_behavior exFailMetrics).2.2
  exact (h (by norm_num +decide [gate1Pass, gate1MinTrades, exFailMetrics,
    gate1MaxDrawdownPct, gate1MinTotalReturnPct])).1

/-- C7: the risk gate accepts HOLD unconditionally; for non-HOLD
candidates it rejects a position size above `maxPositionSize` and rejects
when a non-FLAT position is already held for the ticker; and a rejected
signal merely moves evaluation to the next signal in priority order. -/
theorem c7_risk_gate_behavior (st : FastEngineState)
    (strategy : CompiledStrategy) :
    (∀ sz, checkRiskLimits st strategy TAction.HOLD sz = true) ∧
    (∀ act sz, act ≠ TAction.HOLD →
      strategy.riskParams.maxPositionSize < sz →
      checkRiskLimits st strategy act sz = false) ∧
    (∀ act sz, act ≠ TAction.HOLD →
      0 < |(lookupA st.positions strategy.ticker).getD 0| →
      checkRiskLimits st strategy act sz = false) ∧
    (∀ ticker marketData enriched now signal rest,
      signal.condition enriched = Except.ok true →
      checkRiskLimits st strategy signal.action signal.positionSize = false →
      evalSignals st strategy ticker marketData enriched now (signal :: rest) =
        evalSignals st strategy ticker marketData enriched now rest) := by
  refine ⟨fun sz => by simp [checkRiskLimits], ?_, ?_, ?_⟩
  · intro act sz h1 h2
    unfold checkRiskLimits
    simp [h1, h2]
  · intro act sz h1 h2
    unfold checkRiskLimits
    rw [if_neg h1]
    by_cases hSize : sz > strategy.riskParams.maxPositionSize
    · rw [if_pos hSize]
    · rw [if_neg hSize]
      by_cases hDaily : st.dailyPnL < -strategy.riskParams.maxDailyLoss
      · rw [if_pos hDaily]
      · rw [if_neg hDaily, if_pos h2]
  · intro ticker marketData enriched now signal rest hc hrisk
    simp [evalSignals, hc, hrisk]

/-- C7 witness: a concrete oversized BUY signal is rejected while HOLD
passes, and the oversized head signal falls through to the tail. -/
theorem c7_risk_gate_witness :
    checkRiskLimits exEngine exStrat TAction.HOLD 1 = true ∧
    checkRiskLimits exEngine exStrat TAction.BUY 1 = false := by
  refine ⟨(c7_risk_gate_behavior exEngine exStrat).1 1, ?_⟩
  exact (c7_risk_gate_behavior exEngine exStrat).2.1 TAction.BUY 1
    (by decide) (by norm_num [exStrat, exRisk])

/-- C3 counterexample: the expiry check compares `expiresAt` with the wall
clock, not with the bar's timestamp.  With `exStrat` (expires at 100)
still loaded, a bar stamped 200 — after expiry — still produces a
decision when the call happens at wall-clock time 50. -/
theorem c3_counterexample :
    exStrat.expiresAt = 100 ∧ (100 : ℚ) < (mkBar 200 100 1).timestamp ∧
    ((makeDecision exEngine 1000 "T" (mkBar 200 100 1) 50).1).isSome = true := by
  refine ⟨rfl, by norm_num [mkBar], ?_⟩
  norm_num +decide [makeDecision, exEngine, loadStrategy, freshEngine,
    insertA, lookupA, exStrat, updateCache, enrichData, enrichStep,
    toEnriched, applyVolumeRatio, evalSignals, exSigTrue, checkRiskLimits,
    exRisk, mkBar]

/-- C3 (amended): with the Spec for the ticker still the one whose
`expires_at = T`, a bar with `timestamp > T` produces no decision
provided the decision call happens no earlier than the bar's timestamp
(the source checks `expiresAt < new Date()`, i.e. against the wall
clock). -/
theorem c3_expired_spec_no_decision (st : FastEngineState)
    (maxCacheSize : ℕ) (ticker : String) (bar : MarketData) (now T : ℚ)
    (strategy : CompiledStrategy)
    (hstrat : lookupA st.strategies ticker = some strategy)
    (hT : strategy.expiresAt = T)
    (hbar : T < bar.timestamp)
    (hnow : bar.timestamp ≤ now) :
    (makeDecision st maxCacheSize ticker bar now).1 = none := by
  unfold makeDecision
  rw [hstrat]
  have hexp : strategy.expiresAt < now := by rw [hT]; linarith
  simp [hexp]

/-- C3 witness: the same engine and bar as the counterexample, but called
at wall-clock time 300 ≥ the bar's timestamp: no decision. -/
theorem c3_expired_spec_witness :
    (makeDecision exEngine 1000 "T" (mkBar 200 100 1) 300).1 = none := by
  refine c3_expired_spec_no_decision exEngine 1000 "T" (mkBar 200 100 1)
    300 100 exStrat ?_ rfl (by norm_num [mkBar]) (by norm_num [mkBar])
  norm_num +decide [exEngine, loadStrategy, freshEngine, insertA, lookupA]

/-- C4 counterexample: with a single bar of history (fewer than 20), the
requested `SMA_20` field is present and carries the sentinel 0, not
absent. -/
theorem c4_counterexample :
    ([mkBar 0 5 1] : List MarketData).length < 20 ∧
    ((enrichData "T" (mkBar 0 5 1) [mkBar 0 5 1] ["SMA_20"]
        ([] : CalcState)).1).SMA_20 = some 0 := by
  refine ⟨by simp, ?_⟩
  norm_num +decide [enrichData, enrichStep, toEnriched, applyVolumeRatio,
    SMA, mkBar]

/-- C4 (amended): every requested SMA field is always set when requested —
to the sentinel 0 while the history is shorter than the period, and to
the mean of the last `p` closes once `count ≥ p`. -/
theorem c4_sma_sentinel (ticker : String) (data : MarketData)
    (hist : List MarketData) (st : CalcState) :
    (((enrichData ticker data hist ["SMA_20", "SMA_50", "SMA_200"] st).1).SMA_20
        = some (SMA hist 20) ∧
      ((enrichData ticker data hist ["SMA_20", "SMA_50", "SMA_200"] st).1).SMA_50
        = some (SMA hist 50) ∧
      ((enrichData ticker data hist ["SMA_20", "SMA_50", "SMA_200"] st).1).SMA_200
        = some (SMA hist 200)) ∧
    (∀ p : ℕ, hist.length < p → SMA hist p = 0) ∧
    (∀ p : ℕ, p ≤ hist.length →
      SMA hist p = ((hist.drop (hist.length - p)).map (·.close)).sum / (p : ℚ)) := by
  refine ⟨?_, fun p hp => by simp [SMA, hp],
    fun p hp => by simp [SMA, Nat.not_lt.mpr hp]⟩
  refine ⟨?_, ?_, ?_⟩ <;>
    norm_num +decide [enrichData, enrichStep, toEnriched, applyVolumeRatio]

/-- C4 witness: on a one-bar history the `SMA_20` field is set and its
value is the sentinel 0. -/
theorem c4_sma_sentinel_witness :
    ((enrichData "T" (mkBar 0 5 1) [mkBar 0 5 1] ["SMA_20", "SMA_50", "SMA_200"]
        ([] : CalcState)).1).SMA_20 = some (SMA [mkBar 0 5 1] 20) ∧
    SMA [mkBar 0 5 1] 20 = 0 := by
  exact ⟨(c4_sma_sentinel "T" (mkBar 0 5 1) [mkBar 0 5 1] ([] : CalcState)).1.1,
    (c4_sma_sentinel "T" (mkBar 0 5 1) [mkBar 0 5 1] ([] : CalcState)).2.1 20
      (by simp)⟩

/-- C6 counterexample: against `exStratVol` the predicate of signal `s1`
throws on three consecutive bars (volume 0), yet on the fourth bar the
very same signal is evaluated again and produces the decision — there is
no error counter and no disabling. -/
theorem c6_counterexample :
    c6call1.1 = none ∧ c6call2.1 = none ∧ c6call3.1 = none ∧
    (c6call4.1.map (fun d => d.signalId)) = some "s1" := by
  refine ⟨?_, ?_, ?_, ?_⟩ <;>
    norm_num +decide [c6call1, c6call2, c6call3, c6call4, makeDecision,
      exEngineVol, loadStrategy, freshEngine, insertA, lookupA, exStratVol,
      updateCache, enrichData, enrichStep, toEnriched, applyVolumeRatio,
      evalSignals, exSigVol, checkRiskLimits, exRisk, mkBar]

/-- C6 (amended): a runtime error thrown while evaluating a signal's
predicate is caught and the signal is treated as not triggered for that
bar, evaluation continuing with the next signal; no error counter exists
and the signal is never disabled (it is re-evaluated on every later bar,
as the counterexample shows). -/
theorem c6_runtime_error_isolated (st : FastEngineState)
    (strategy : CompiledStrategy) (ticker : String)
    (marketData : MarketData) (enriched : EnrichedMarketData) (now : ℚ)
    (signal : TradingSignal) (rest : List TradingSignal)
    (herr : signal.condition enriched = Except.error ()) :
    evalSignals st strategy ticker marketData enriched now (signal :: rest) =
      evalSignals st strategy ticker marketData enriched now rest := by
  simp [evalSignals, herr]

/-- C6 witness: the throwing signal of `exStratVol` on a zero-volume bar
is skipped. -/
theorem c6_runtime_error_witness :
    evalSignals exEngineVol exStratVol "T" (mkBar 1 100 0)
        (toEnriched (mkBar 1 100 0)) 10 [exSigVol] =
      evalSignals exEngineVol exStratVol "T" (mkBar 1 100 0)
        (toEnriched (mkBar 1 100 0)) 10 [] := by
  exact c6_runtime_error_isolated exEngineVol exStratVol "T" (mkBar 1 100 0)
    (toEnriched (mkBar 1 100 0)) 10 exSigVol []
    (by norm_num [exSigVol, toEnriched, mkBar])

/-- C1: the MACD enrichment computes `macd = EMA(12) − EMA(26)` and
`histogram = macd − signal`, but the signal line is
`calculateSignalLine = macd · 0.9` for every input — not an EMA(9)
maintained over the MACD stream.  On twelve flat bars of close 2 (a fresh
calculator) the code emits `macd = 2`, `signal = 1.8`, while a spec
EMA(9) accumulator over the one-element MACD stream has no value yet. -/
theorem c1_macd_signal_bug :
    (∀ (ticker : String) (m : ℚ) (p : ℕ),
      calculateSignalLine ticker m p = m * (9 / 10)) ∧
    c1res.macd = 2 ∧ c1res.signal = 9 / 5 ∧
    c1res.histogram = c1res.macd - c1res.signal ∧
    specSignalEMA9 [c1res.macd] = none := by
  have hmacd : c1res.macd = 2 := by
    norm_num +decide [c1res, MACD, EMA, SMA, calculateSignalLine, writeEma,
      lookupA, insertA, lookupEma, setEma, c1bars, mkBar, List.replicate]
  have hsig : c1res.signal = 9 / 5 := by
    norm_num +decide [c1res, MACD, EMA, SMA, calculateSignalLine, writeEma,
      lookupA, insertA, lookupEma, setEma, c1bars, mkBar, List.replicate]
  have hhist : c1res.histogram = 1 / 5 := by
    norm_num +decide [c1res, MACD, EMA, SMA, calculateSignalLine, writeEma,
      lookupA, insertA, lookupEma, setEma, c1bars, mkBar, List.replicate]
  refine ⟨fun t m p => rfl, hmacd, hsig, ?_, ?_⟩
  · rw [hhist, hmacd, hsig]; norm_num
  · simp [specSignalEMA9]

theorem ddLoop_chain (l : List ℚ) :
    ∀ maxEq dd : ℚ, List.Chain (· ≤ ·) maxEq l → 0 ≤ dd →
      ddLoop maxEq dd l = dd := by
  induction l with
  | nil => intro maxEq dd _ _; rfl
  | cons e rest ih =>
    intro maxEq dd hch hdd
    rw [List.chain_cons] at hch
    obtain ⟨hle, hch2⟩ := hch
    have h1 : (if e > maxEq then e else maxEq) = e := by
      split_ifs with hgt
      · rfl
      · exact le_antisymm hle (not_lt.mp hgt)
    simp only [ddLoop, h1, sub_self, zero_div, zero_mul]
    rw [if_neg (not_lt.mpr hdd)]
    exact ih e dd hch2 hdd

set_option maxHeartbeats 1000000 in
/-- Evaluation of the one-bar backtest: the signal fires, 99 shares are
bought at 100.05 with 9.90495 commission, the position is closed at the
end of the run at 99.95 realizing a pnl of −19.79505 after the sell
commission of 9.89505, the single equity sample sits below the initial
capital, and the final cash is 99970.30. -/
theorem exRun_eval : exRun = some exRunResult := by
  norm_num +decide [exRun, runBacktest, btLoop, exCfg, exStrat, exSigTrue, slFallback, tpFallback,
    exRisk, mkBar, makeDecision, loadStrategy, freshEngine, insertA,
    lookupA, removeA, updateCache, enrichData, enrichStep, toEnriched,
    applyVolumeRatio, evalSignals, checkRiskLimits, executeTrade,
    updatePositions, stopHit, takeProfitHit, closePosition,
    closeAllPositions, closeAllGo, calculateEquity, calculateMetrics,
    ddLoop, tradeReason, sumPnl, exRunResult, exMetrics, exBuyTrade,
    exSellTrade, Int.floor_eq_iff]

/-- C9 counterexample: the one-bar backtest's equity curve is a single
sample (trivially monotonically non-decreasing), yet the computed
`max_drawdown` is positive, because the running peak is seeded with the
initial capital and the sample sits below it. -/
theorem c9_counterexample :
    (exRun.map (fun r => (r.equityCurve.map (·.2), r.metrics.maxDrawdown)))
      = some ([1999702901 / 20000], 297099 / 20000000) ∧
    List.Chain' (· ≤ ·) [(1999702901 / 20000 : ℚ)] ∧
    (297099 / 20000000 : ℚ) ≠ 0 := by
  refine ⟨?_, by simp, by norm_num⟩
  rw [exRun_eval]
  norm_num [exRunResult, exMetrics]

/-- C9 (amended): the computed `max_drawdown` is 0 whenever the sampled
equity curve is monotonically non-decreasing **and** starts at or above
the initial capital (the drawdown scan seeds its running peak with
`initialCapital`). -/
theorem c9_drawdown_monotone (config : BacktestConfig) (capital : ℚ)
    (trades : List Trade) (curve : List (ℚ × ℚ))
    (h : List.Chain (· ≤ ·) config.initialCapital (curve.map (·.2))) :
    (calculateMetrics config capital trades curve).maxDrawdown = 0 := by
  have : (calculateMetrics config capital trades curve).maxDrawdown
      = ddLoop config.initialCapital 0 (curve.map (·.2)) := rfl
  rw [this]
  exact ddLoop_chain (curve.map (·.2)) config.initialCapital 0 h le_rfl

/-- C9 witness: a two-sample non-decreasing curve starting at the initial
capital has zero drawdown. -/
theorem c9_drawdown_monotone_witness :
    (calculateMetrics exCfg 0 [] [(0, 100000), (1, 100100)]).maxDrawdown = 0 := by
  exact c9_drawdown_monotone exCfg 0 [] [(0, 100000), (1, 100100)]
    (by norm_num [exCfg, List.chain_cons])

/-- C2 counterexample: in the one-bar backtest the final capital is
99970.30, while `initial + Σ pnl − Σ commission + Σ open-position MTM`
is 99960.40495 — the SELL commission is double-counted by the claimed
identity because each sell's pnl already nets its commission out. -/
theorem c2_counterexample :
    (exRun.map (fun r =>
      (r.finalCapital, sumPnl r.trades, sumComm r.trades, r.positions)))
      = some (999703 / 10, -395901 / 20000, 396000 / 20000, []) ∧
    (999703 / 10 : ℚ) ≠ 100000 + (-395901 / 20000) - 396000 / 20000 + 0 := by
  refine ⟨?_, by norm_num⟩
  rw [exRun_eval]
  norm_num [exRunResult, exMetrics, exBuyTrade, exSellTrade, sumPnl, sumComm]

theorem sumPnl_append (ts : List Trade) (t : Trade) :
    sumPnl (ts ++ [t]) = sumPnl ts + t.pnl.getD 0 := by
  simp [sumPnl]

theorem sumBuyComm_append (ts : List Trade) (t : Trade) :
    sumBuyComm (ts ++ [t]) =
      sumBuyComm ts + (if t.action = TAction.BUY then t.commission else 0) := by
  by_cases h : t.action = TAction.BUY <;> simp [sumBuyComm, h]

theorem posBook_nil : posBook [] = 0 := rfl

theorem posBook_single (k : String) (p : Position) :
    posBook [(k, p)] = p.quantity * p.entry := by
  simp [posBook]

theorem executeTrade_ok (config : BacktestConfig)
    (strategy : CompiledStrategy) (st : BTState) (data : MarketData)
    (decision : TradeDecision) (hd : data.ticker = strategy.ticker)
    (h : StateOK config strategy st) :
    StateOK config strategy (executeTrade config strategy st data decision) := by
  unfold StateOK at h ⊢
  obtain ⟨hpos, hcap⟩ := h
  rcases hpos with h0 | ⟨p, h1⟩
  · have hlook : lookupA st.positions data.ticker = none := by rw [h0]; rfl
    simp only [executeTrade, hlook]
    by_cases hact : decision.action = TAction.BUY
    · simp only [hact, if_true, true_and, eq_self_iff_true]
      split_ifs with hafford
      · constructor
        · right
          rw [h0]
          simp only [insertA]
          rw [hd]
          exact ⟨_, rfl⟩
        · dsimp only
          rw [h0]
          simp only [insertA]
          rw [sumPnl_append, sumBuyComm_append, posBook_single]
          dsimp only
          rw [hcap, h0, posBook_nil]
          simp only [Option.getD_none, eq_self_iff_true, if_true]
          ring
      · exact ⟨Or.inl h0, hcap⟩
    · rw [if_neg (fun hc => hact hc.1)]
      exact ⟨Or.inl h0, hcap⟩
  · have hlook : lookupA st.positions data.ticker = some p := by
      rw [h1, hd]; simp [lookupA]
    have hremove : removeA st.positions data.ticker = [] := by
      rw [h1, hd]; simp [removeA]
    simp only [executeTrade, hlook]
    have hne : ¬(decision.action = TAction.BUY ∧
        (some p : Option Position) = none) := by
      rintro ⟨_, hc⟩
      exact Option.noConfusion hc
    rw [if_neg hne]
    by_cases hact : decision.action = TAction.SELL
    · rw [if_pos hact]
      constructor
      · left
        dsimp only
        exact hremove
      · dsimp only
        rw [hremove, posBook_nil, sumPnl_append, sumBuyComm_append]
        dsimp only
        rw [hcap, h1, posBook_single]
        have hbuy : ¬(TAction.SELL = TAction.BUY) := by decide
        simp only [Option.getD_some, if_neg hbuy]
        ring
    · rw [if_neg hact]
      exact ⟨Or.inr ⟨p, h1⟩, hcap⟩

theorem closePosition_ok (config : BacktestConfig)
    (strategy : CompiledStrategy) (st : BTState) (data : MarketData)
    (p : Position) (reason : String) (hd : data.ticker = strategy.ticker)
    (h1 : st.positions = [(strategy.ticker, p)])
    (hcap : st.capital = config.initialCapital + sumPnl st.trades
      - sumBuyComm st.trades - posBook st.positions) :
    StateOK config strategy (closePosition config st data p reason) ∧
    (closePosition config st data p reason).positions = [] := by
  have hremove : removeA st.positions data.ticker = [] := by
    rw [h1, hd]; simp [removeA]
  unfold StateOK
  refine ⟨⟨Or.inl ?_, ?_⟩, ?_⟩
  · simp only [closePosition]
    exact hremove
  · simp only [closePosition]
    rw [hremove, posBook_nil, sumPnl_append, sumBuyComm_append]
    dsimp only
    rw [hcap, h1, posBook_single]
    have hbuy : ¬(TAction.SELL = TAction.BUY) := by decide
    simp only [Option.getD_some, if_neg hbuy]
    ring
  · simp only [closePosition]
    exact hremove

theorem updatePositions_ok (config : BacktestConfig)
    (strategy : CompiledStrategy) (st : BTState) (data : MarketData)
    (hd : data.ticker = strategy.ticker)
    (h : StateOK config strategy st) :
    StateOK config strategy (updatePositions config st data) := by
  obtain ⟨hpos, hcap⟩ := h
  rcases hpos with h0 | ⟨p, h1⟩
  · have hlook : lookupA st.positions data.ticker = none := by rw [h0]; rfl
    simp only [updatePositions, hlook]
    exact ⟨Or.inl h0, hcap⟩
  · have hlook : lookupA st.positions data.ticker = some p := by
      rw [h1, hd]; simp [lookupA]
    simp only [updatePositions, hlook]
    split_ifs with hstop htp
    · exact (closePosition_ok config strategy st data p "Stop Loss" hd h1 hcap).1
    · exact (closePosition_ok config strategy st data p "Take Profit" hd h1 hcap).1
    · exact ⟨Or.inr ⟨p, h1⟩, hcap⟩

theorem btLoop_ok (config : BacktestConfig) (strategy : CompiledStrategy)
    (now : ℚ) (total : ℕ) :
    ∀ (l : List MarketData) (i : ℕ) (st : BTState),
      StateOK config strategy st →
      (∀ b ∈ l, b.ticker = strategy.ticker) →
      StateOK config strategy (btLoop config strategy now total i l st) := by
  intro l
  induction l with
  | nil => intro i st h _; exact h
  | cons data rest ih =>
    intro i st h hl
    have hd : data.ticker = strategy.ticker := hl data (by simp)
    have hrest : ∀ b ∈ rest, b.ticker = strategy.ticker := by
      intro b hb; exact hl b (by simp [hb])
    simp only [btLoop]
    apply ih
    · have h2 : StateOK config strategy
          { st with engine := (makeDecision st.engine 1000 data.ticker data now).2 } := h
      have h3 : StateOK config strategy
          (match (makeDecision st.engine 1000 data.ticker data now).1 with
           | some decision => executeTrade config strategy
               { st with engine := (makeDecision st.engine 1000 data.ticker data now).2 }
               data decision
           | none =>
               { st with engine := (makeDecision st.engine 1000 data.ticker data now).2 }) := by
        rcases (makeDecision st.engine 1000 data.ticker data now).1 with _ | decision
        · exact h2
        · exact executeTrade_ok config strategy _ data decision hd h2
      have h4 := updatePositions_ok config strategy _ data hd h3
      split_ifs with hsample
      · exact h4
      · exact h4
    · exact hrest

theorem closeAllPositions_ok (config : BacktestConfig)
    (strategy : CompiledStrategy) (st : BTState) (last : MarketData)
    (hd : last.ticker = strategy.ticker)
    (h : StateOK config strategy st) :
    (closeAllPositions config st last).positions = [] ∧
    (closeAllPositions config st last).capital
      = config.initialCapital + sumPnl (closeAllPositions config st last).trades
        - sumBuyComm (closeAllPositions config st last).trades := by
  obtain ⟨hpos, hcap⟩ := h
  unfold closeAllPositions
  rcases hpos with h0 | ⟨p, h1⟩
  · rw [h0]
    simp only [closeAllGo]
    rw [hcap, h0, posBook_nil]
    exact ⟨rfl, by ring⟩
  · rw [h1]
    simp only [closeAllGo]
    have hlook : (lookupA st.positions strategy.ticker).isSome = true := by
      rw [h1]; simp [lookupA]
    rw [if_pos hlook]
    have hc := closePosition_ok config strategy st last p "End of backtest"
      hd h1 hcap
    refine ⟨hc.2, ?_⟩
    have := hc.1.2
    rw [hc.2, posBook_nil] at this
    rw [this]
    ring

/-- C2 (amended): for every completed single-ticker backtest run over a
non-empty bar sequence, `final_capital = initial_capital + Σ trade.pnl −
Σ commission over BUY trades`, and all positions are closed at the end of
the run (so the mark-to-market term is zero).  Each SELL's commission is
already netted inside its recorded pnl, which is why only BUY commissions
appear separately. -/
theorem c2_capital_identity (config : BacktestConfig)
    (strategy : CompiledStrategy) (bars : List MarketData) (now : ℚ)
    (r : BacktestResult) (hbars : bars ≠ [])
    (ht : ∀ b ∈ bars, b.ticker = strategy.ticker)
    (hr : runBacktest config strategy bars now = some r) :
    r.finalCapital = config.initialCapital + sumPnl r.trades
      - sumBuyComm r.trades ∧ r.positions = [] := by
  rcases hlast : bars.getLast? with _ | last
  · exact absurd (List.getLast?_eq_none_iff.mp hlast) hbars
  have hmem : last ∈ bars := by
    have hin : last ∈ bars.getLast? := by rw [hlast]; rfl
    obtain ⟨hne, heq⟩ := List.mem_getLast?_eq_getLast hin
    rw [heq]
    exact List.getLast_mem hne
  have hd : last.ticker = strategy.ticker := ht last hmem
  unfold runBacktest at hr
  split_ifs at hr with hvalid
  simp only [hlast] at hr
  have hx := Option.some.inj hr
  subst hx
  have hok : StateOK config strategy
      (btLoop config strategy now bars.length 0 bars
        { capital := config.initialCapital, positions := [], trades := [],
          equityCurve := [], engine := loadStrategy freshEngine strategy }) := by
    apply btLoop_ok
    · exact ⟨Or.inl rfl, by simp [sumPnl, sumBuyComm, posBook]⟩
    · exact ht
  have hfinal := closeAllPositions_ok config strategy _ last hd hok
  exact ⟨hfinal.2, by rw [show (closeAllPositions config
    (btLoop config strategy now bars.length 0 bars
      { capital := config.initialCapital, positions := [], trades := [],
        equityCurve := [], engine := loadStrategy freshEngine strategy })
    last).positions = [] from hfinal.1]; rfl⟩

/-- C2 witness: the identity holds on the concrete one-bar backtest,
where it evaluates to `99970.3 = 100000 − 19.79505 − 9.90495`. -/
theorem c2_capital_identity_witness :
    exRunResult.finalCapital = exCfg.initialCapital + sumPnl exRunResult.trades
      - sumBuyComm exRunResult.trades ∧ exRunResult.positions = [] := by
  have h := c2_capital_identity exCfg exStrat [mkBar 0 100 1] 50 exRunResult
    (by simp) (by intro b hb; simp at hb; rw [hb]; rfl) exRun_eval
  exact h

theorem startsWithL_iff (w : List Char) :
    ∀ l : List Char, startsWithL w l = true ↔ ∃ t, l = w ++ t := by
  induction w with
  | nil => intro l; simp [startsWithL]
  | cons c wr ih =>
    intro l
    cases l with
    | nil => simp [startsWithL]
    | cons d lr =>
      simp only [startsWithL, Bool.and_eq_true, decide_eq_true_eq, ih,
        List.cons_append, List.cons.injEq]
      constructor
      · rintro ⟨rfl, t, rfl⟩
        exact ⟨t, rfl, rfl⟩
      · rintro ⟨t, h1, h2⟩
        exact ⟨h1.symm, t, h2⟩

theorem hasSub_iff (w : List Char) :
    ∀ l : List Char, hasSub l w = true ↔ ∃ s t, l = s ++ w ++ t := by
  intro l
  induction l with
  | nil =>
    simp only [hasSub, startsWithL_iff]
    constructor
    · rintro ⟨t, ht⟩
      exact ⟨[], t, by simpa using ht⟩
    · rintro ⟨s, t, hst⟩
      obtain ⟨h1, h2⟩ := List.append_eq_nil.mp hst.symm
      obtain ⟨h3, h4⟩ := List.append_eq_nil.mp h1
      exact ⟨[], by rw [h4]; rfl⟩
  | cons c lr ih =>
    simp only [hasSub, Bool.or_eq_true, ih, startsWithL_iff]
    constructor
    · rintro (⟨t, ht⟩ | ⟨s, t, hst⟩)
      · exact ⟨[], t, by simpa using ht⟩
      · exact ⟨c :: s, t, by simp [hst]⟩
    · rintro ⟨s, t, hst⟩
      cases s with
      | nil => exact Or.inl ⟨t, by simpa using hst⟩
      | cons x s2 =>
        right
        injection hst with h1 h2
        exact ⟨s2, t, h2⟩

theorem hasSub_cons (c : Char) (l w : List Char) (h : hasSub l w = true) :
    hasSub (c :: l) w = true := by
  simp only [hasSub, Bool.or_eq_true]
  exact Or.inr h

theorem hasSub_reverse (l w : List Char) (h : hasSub l w = true) :
    hasSub l.reverse w.reverse = true := by
  rw [hasSub_iff] at h ⊢
  obtain ⟨s, t, rfl⟩ := h
  exact ⟨t.reverse, s.reverse, by simp⟩

theorem hasSub_map (f : Char → Char) (l w : List Char)
    (h : hasSub l w = true) : hasSub (l.map f) (w.map f) = true := by
  rw [hasSub_iff] at h ⊢
  obtain ⟨s, t, rfl⟩ := h
  exact ⟨s.map f, t.map f, by simp⟩

theorem hasSub_dropWhile (p : Char → Bool) (w : List Char) (hw : w ≠ [])
    (hnp : ∀ c ∈ w, p c = false) :
    ∀ l, hasSub l w = true → hasSub (l.dropWhile p) w = true := by
  intro l
  induction l with
  | nil => intro h; simpa [List.dropWhile] using h
  | cons c lr ih =>
    intro h
    rw [List.dropWhile_cons]
    by_cases hc : p c = true
    · rw [if_pos hc]
      apply ih
      rcases (Bool.or_eq_true _ _).mp (by simpa [hasSub] using h) with h1 | h1
      · rw [startsWithL_iff] at h1
        obtain ⟨t, ht⟩ := h1
        cases w with
        | nil => exact absurd rfl hw
        | cons w0 wr =>
          injection ht with h2 _
          have h3 := hnp w0 (List.mem_cons_self _ _)
          rw [← h2, hc] at h3
          exact Bool.noConfusion h3
      · exact h1
    · rw [if_neg hc]
      exact h

theorem mem_dropWhile (p : Char → Bool) (c : Char) (hc : p c = false) :
    ∀ l : List Char, c ∈ l → c ∈ l.dropWhile p := by
  intro l
  induction l with
  | nil => intro h; simp at h
  | cons d lr ih =>
    intro h
    rw [List.dropWhile_cons]
    by_cases hd : p d = true
    · rw [if_pos hd]
      apply ih
      rcases List.mem_cons.mp h with rfl | h2
      · rw [hc] at hd; exact Bool.noConfusion hd
      · exact h2
    · rw [if_neg hd]
      exact h

theorem hasSub_trimL (w : List Char) (hw : w ≠ [])
    (hnp : ∀ c ∈ w, isWsChar c = false) (s : List Char)
    (h : hasSub s w = true) : hasSub (trimL s) w = true := by
  unfold trimL
  have h1 := hasSub_dropWhile isWsChar w hw hnp s h
  have h2 := hasSub_reverse _ _ h1
  have h3 := hasSub_dropWhile isWsChar w.reverse (by simpa using hw)
    (fun c hc => hnp c (List.mem_reverse.mp hc)) _ h2
  have h4 := hasSub_reverse _ _ h3
  simpa using h4

theorem mem_trimL (c : Char) (hc : isWsChar c = false) (s : List Char)
    (h : c ∈ s) : c ∈ trimL s := by
  unfold trimL
  have h1 := mem_dropWhile isWsChar c hc s h
  have h2 := mem_dropWhile isWsChar c hc _ (List.mem_reverse.mpr h1)
  exact List.mem_reverse.mpr h2

theorem startsWithL_strip :
    ∀ (prev : Bool) (l : List Char), ∀ w : List Char, ('d' : Char) ∉ w →
      startsWithL w l = true → startsWithL w (stripDataAux prev l) = true := by
  intro prev l
  induction prev, l using stripDataAux.induct with
  | case1 prev =>
    intro w hd h
    simpa [stripDataAux] using h
  | case2 rest ih =>
    intro w hd h
    cases w with
    | nil => simp [startsWithL]
    | cons w0 wr =>
      simp only [startsWithL, Bool.and_eq_true, decide_eq_true_eq] at h
      exact absurd (by rw [← h.1]; exact List.mem_cons_self _ _ : ('d':Char) ∈ w0 :: wr) hd
  | case3 a rest hna ih =>
    intro w hd h
    cases w with
    | nil => simp [startsWithL]
    | cons w0 wr =>
      simp only [startsWithL, Bool.and_eq_true, decide_eq_true_eq] at h
      exact absurd (by rw [← h.1]; exact List.mem_cons_self _ _ : ('d':Char) ∈ w0 :: wr) hd
  | case4 a c rest hnm ih =>
    intro w hd h
    simp only [stripDataAux]
    cases w with
    | nil => simp [startsWithL]
    | cons w0 wr =>
      simp only [startsWithL, Bool.and_eq_true, decide_eq_true_eq] at h ⊢
      exact ⟨h.1, ih wr (fun hm => hd (List.mem_cons_of_mem _ hm)) h.2⟩

theorem hasSub_strip :
    ∀ (prev : Bool) (l : List Char), ∀ (w0 : Char) (wr : List Char),
      ('d' : Char) ∉ w0 :: wr → w0 ≠ 'a' → w0 ≠ 't' → w0 ≠ '.' →
      hasSub l (w0 :: wr) = true →
      hasSub (stripDataAux prev l) (w0 :: wr) = true := by
  intro prev l
  induction prev, l using stripDataAux.induct with
  | case1 prev =>
    intro w0 wr _ _ _ _ h
    simp [hasSub, startsWithL] at h
  | case2 rest ih =>
    intro w0 wr hd ha ht hdot h
    have hw0d : w0 ≠ 'd' := fun he => hd (he ▸ List.mem_cons_self _ _)
    simp only [hasSub, startsWithL, Bool.or_eq_true, Bool.and_eq_true,
      decide_eq_true_eq] at h
    have hrest : hasSub rest (w0 :: wr) = true := by
      rcases h with ⟨h1, _⟩ | ⟨h1, _⟩ | ⟨h1, _⟩ | ⟨h1, _⟩ | ⟨h1, _⟩ | h
      · exact absurd h1 hw0d
      · exact absurd h1 ha
      · exact absurd h1 ht
      · exact absurd h1 ha
      · exact absurd h1 hdot
      · exact h
    show hasSub ('d' :: stripDataAux true ('a' :: 't' :: 'a' :: '.' :: rest))
      (w0 :: wr) = true
    apply hasSub_cons
    apply ih w0 wr hd ha ht hdot
    exact hasSub_cons _ _ _ (hasSub_cons _ _ _ (hasSub_cons _ _ _
      (hasSub_cons _ _ _ hrest)))
  | case3 a rest hna ih =>
    intro w0 wr hd ha ht hdot h
    have hw0d : w0 ≠ 'd' := fun he => hd (he ▸ List.mem_cons_self _ _)
    have ha2 : a = false := by simpa using hna
    subst ha2
    simp only [hasSub, startsWithL, Bool.or_eq_true, Bool.and_eq_true,
      decide_eq_true_eq] at h
    have hrest : hasSub rest (w0 :: wr) = true := by
      rcases h with ⟨h1, _⟩ | ⟨h1, _⟩ | ⟨h1, _⟩ | ⟨h1, _⟩ | ⟨h1, _⟩ | h
      · exact absurd h1 hw0d
      · exact absurd h1 ha
      · exact absurd h1 ht
      · exact absurd h1 ha
      · exact absurd h1 hdot
      · exact h
    show hasSub (stripDataAux false rest) (w0 :: wr) = true
    exact ih w0 wr hd ha ht hdot hrest
  | case4 a c rest hnm ih =>
    intro w0 wr hd ha ht hdot h
    simp only [stripDataAux]
    simp only [hasSub, Bool.or_eq_true] at h ⊢
    rcases h with h | h
    · left
      simp only [startsWithL, Bool.and_eq_true, decide_eq_true_eq] at h ⊢
      exact ⟨h.1, startsWithL_strip (isWordChar c) rest wr
        (fun hm => hd (List.mem_cons_of_mem _ hm)) h.2⟩
    · right
      exact ih w0 wr hd ha ht hdot h

theorem mem_strip (c : Char) (hd2 : c ≠ 'd') (ha2 : c ≠ 'a') (ht2 : c ≠ 't')
    (hdot2 : c ≠ '.') :
    ∀ (prev : Bool) (l : List Char), c ∈ l → c ∈ stripDataAux prev l := by
  intro prev l
  induction prev, l using stripDataAux.induct with
  | case1 prev => intro h; exact h
  | case2 rest ih =>
    intro h
    show c ∈ 'd' :: stripDataAux true ('a' :: 't' :: 'a' :: '.' :: rest)
    have hc : c ∈ ('a' :: 't' :: 'a' :: '.' :: rest) := by
      rcases List.mem_cons.mp h with rfl | h2
      · exact absurd rfl hd2
      · exact h2
    exact List.mem_cons_of_mem _ (ih hc)
  | case3 a rest hna ih =>
    intro h
    have ha3 : a = false := by simpa using hna
    subst ha3
    show c ∈ stripDataAux false rest
    apply ih
    rcases List.mem_cons.mp h with rfl | h2
    · exact absurd rfl hd2
    rcases List.mem_cons.mp h2 with rfl | h3
    · exact absurd rfl ha2
    rcases List.mem_cons.mp h3 with rfl | h4
    · exact absurd rfl ht2
    rcases List.mem_cons.mp h4 with rfl | h5
    · exact absurd rfl ha2
    rcases List.mem_cons.mp h5 with rfl | h6
    · exact absurd rfl hdot2
    exact h6
  | case4 a c2 rest hnm ih =>
    intro h
    simp only [stripDataAux]
    rcases List.mem_cons.mp h with rfl | h2
    · exact List.mem_cons_self _ _
    · exact List.mem_cons_of_mem _ (ih h2)

/-- C5: every condition string that contains a deny-listed keyword
(`constructor`, `prototype`, `process`, `global`, `require`, `import`,
`function`, `new`) or any character outside the conservative allowed set
(which excludes in particular `;`, backtick, quotes, backslash, brackets
and braces — the explicitly forbidden tokens) is rejected at compile time
with an error and no predicate is produced.  (`InvalidCondition` in the
spec's error taxonomy; the source throws `Error`.)  In particular
`"process.exit()"` fails to compile — see the witness. -/
theorem c5_condition_sandbox (s : List Char)
    (h : (∃ w ∈ badWords, hasSub s w = true) ∨ ∃ c ∈ s, allowedChar c = false) :
    ∃ e, compileCondition s = Except.error e := by
  have key : ∀ w ∈ badWords, w ≠ [] ∧ (∀ c ∈ w, isWsChar c = false) ∧
      ('d' : Char) ∉ w ∧ w.map Char.toLower = w ∧
      w.head? ≠ some 'a' ∧ w.head? ≠ some 't' ∧ w.head? ≠ some '.' := by
    decide
  have main : ∀ w ∈ badWords, hasSub s w = true →
      hasSub ((stripDataAux false (trimL s)).map Char.toLower) w = true := by
    intro w hw hsub
    obtain ⟨hne, hws, hd, hlow, hha, hht, hhdot⟩ := key w hw
    cases w with
    | nil => exact absurd rfl hne
    | cons w0 wr =>
      have ha' : w0 ≠ 'a' := fun he => hha (by simp [he])
      have ht' : w0 ≠ 't' := fun he => hht (by simp [he])
      have hdot' : w0 ≠ '.' := fun he => hhdot (by simp [he])
      have h1 := hasSub_trimL (w0 :: wr) hne hws s hsub
      have h2 := hasSub_strip false (trimL s) w0 wr hd ha' ht' hdot' h1
      have h3 := hasSub_map Char.toLower _ _ h2
      rwa [hlow] at h3
  simp only [compileCondition]
  by_cases hraw : trimL s = []
  · exfalso
    rcases h with ⟨w, hw, hsub⟩ | ⟨c, hc, hbad⟩
    · have h1 := hasSub_trimL w (key w hw).1 (key w hw).2.1 s hsub
      rw [hraw] at h1
      obtain ⟨t, ht⟩ := (startsWithL_iff w []).mp (by simpa [hasSub] using h1)
      exact (key w hw).1 (List.append_eq_nil.mp ht.symm).1
    · have hcw : isWsChar c = false := by
        cases hws : isWsChar c
        · rfl
        · exfalso
          have hact : allowedChar c = true := by
            unfold allowedChar; rw [hws]; simp
          rw [hbad] at hact
          exact Bool.noConfusion hact
      have h1 := mem_trimL c hcw s hc
      rw [hraw] at h1
      simp at h1
  · rw [if_neg hraw]
    by_cases hforb : (stripDataAux false (trimL s)).any
        (fun c => forbiddenChars.contains c) = true
    · rw [if_pos hforb]
      exact ⟨CompileErr.forbiddenToken, rfl⟩
    · rw [if_neg hforb]
      by_cases hinv : stripDataAux false (trimL s) = [] ∨
          ¬ ((stripDataAux false (trimL s)).all allowedChar = true)
      · rw [if_pos hinv]
        exact ⟨CompileErr.invalidChars, rfl⟩
      · rw [if_neg hinv]
        by_cases hbadw : badWords.any
            (fun w => hasSub ((stripDataAux false (trimL s)).map Char.toLower) w)
            = true
        · rw [if_pos hbadw]
          exact ⟨CompileErr.forbiddenKeyword, rfl⟩
        · rw [if_neg hbadw]
          exfalso
          push_neg at hinv
          obtain ⟨hne2, hall⟩ := hinv
          rcases h with ⟨w, hw, hsub⟩ | ⟨c, hc, hbad⟩
          · exact hbadw (List.any_eq_true.mpr ⟨w, hw, main w hw hsub⟩)
          · have hcw : isWsChar c = false := by
              cases hws : isWsChar c
              · rfl
              · exfalso
                have hact : allowedChar c = true := by
                  unfold allowedChar; rw [hws]; simp
                rw [hbad] at hact
                exact Bool.noConfusion hact
            have hd' : c ≠ 'd' := by
              intro he
              rw [he, (by decide : allowedChar 'd' = true)] at hbad
              exact Bool.noConfusion hbad
            have ha' : c ≠ 'a' := by
              intro he
              rw [he, (by decide : allowedChar 'a' = true)] at hbad
              exact Bool.noConfusion hbad
            have ht' : c ≠ 't' := by
              intro he
              rw [he, (by decide : allowedChar 't' = true)] at hbad
              exact Bool.noConfusion hbad
            have hdot' : c ≠ '.' := by
              intro he
              rw [he, (by decide : allowedChar '.' = true)] at hbad
              exact Bool.noConfusion hbad
            have h1 := mem_trimL c hcw s hc
            have h2 := mem_strip c hd' ha' ht' hdot' false (trimL s) h1
            have h3 := List.all_eq_true.mp hall c h2
            rw [hbad] at h3
            exact Bool.noConfusion h3

/-- C5 witness: compiling `"process.exit()"` fails. -/
theorem c5_condition_sandbox_witness :
    ∃ e, compileCondition ("process.exit()".toList) = Except.error e := by
  apply c5_condition_sandbox
  left
  refine ⟨"process".toList, by decide, by decide⟩
